import Mathlib

/-!
Shallow embedding of the selection/weighting engine and spin state machine of
the Gerbil-Decide wheel application (src/main.rs), together with proofs of the
specified properties.

Modelling conventions:
* Rust `u32` weights become `ℕ` (additions in the source would panic on
  overflow in debug builds; no claim concerns overflow).
* Rust `f32` arithmetic is modelled over `ℚ` with exact rational values for
  the numeric literals.  The two places where IEEE-754 semantics are
  observable are modelled explicitly: the `%` operator on floats is the
  remainder with the sign of the dividend (`fmod` below), and in
  `apply_pct_input` a division of a positive number by zero yields `+∞`,
  whose `as u32` cast saturates to `u32::MAX` (explicit branch below).
* `std::f32::consts::PI` is the exact rational value of the `f32` constant.
* The process-wide random number generator is modelled as an injected
  parameter: `spin` and `tick` receive the velocity the RNG would produce.
-/

namespace GerbilDecide

/-- Truncation of a rational toward zero, as Rust `as`-style truncation. -/
def truncQ (q : ℚ) : ℤ := if 0 ≤ q then ⌊q⌋ else ⌈q⌉

/-- Rust `%` on floats: remainder with the sign of the dividend. -/
def fmod (a b : ℚ) : ℚ := a - b * truncQ (a / b)

/-- Rust `f32::round`: round half away from zero. -/
def roundHalfAway (q : ℚ) : ℤ := if 0 ≤ q then ⌊q + 1/2⌋ else ⌈q - 1/2⌉

/-- `u32::MAX`. -/
def u32Max : ℕ := 4294967295

/-- Rust float-to-`u32` `as` cast of an already-rounded integer value:
saturates below at 0 and above at `u32::MAX`. -/
def castU32 (z : ℤ) : ℕ := (min z (u32Max : ℤ)).toNat

/-- The exact rational value of the `f32` constant `std::f32::consts::PI`
(bit pattern 0x40490FDB). -/
def PI : ℚ := 13176795 / 4194304

/-- `struct Item { name: String, weight: u32 }` from src/main.rs. -/
structure Item where
  name : String
  weight : ℕ
deriving DecidableEq

instance : Inhabited Item := ⟨⟨"", 0⟩⟩

/-- `Item::new`: weight starts at 1. -/
def Item.new (name : String) : Item := { name := name, weight := 1 }

/-- `struct WheelData` from src/main.rs (the persisted unit). -/
structure WheelData where
  name : String
  items : List Item
  removed_items : List Item
  winner_history : List String
  remove_winner : Bool
  auto_spin : Bool
deriving DecidableEq

/-- `struct WheelState` from src/main.rs (ephemeral per-wheel UI/spin state). -/
structure WheelState where
  input_text : String
  is_spinning : Bool
  rotation : ℚ
  velocity : ℚ
  has_stopped : Bool
  stop_delay : ℚ
  editing_idx : Option ℕ
  edit_buf : String
  pct_bufs : List String
deriving DecidableEq

/-- `struct Wheel { data: WheelData, state: WheelState }`. -/
structure Wheel where
  data : WheelData
  state : WheelState
deriving DecidableEq

/-- `Wheel::total_weight`: sum of all item weights, floored to 1 when the
sum is 0. -/
def total_weight (w : Wheel) : ℕ :=
  let total := (w.data.items.map Item.weight).sum
  if total = 0 then 1 else total

/-- The `trim().trim_end_matches('%')` preprocessing of the typed
percentage text in `Wheel::apply_pct_input`: strip surrounding whitespace,
then strip every trailing `'%'`.  Implemented on the character list of the
string. -/
def stripPct (s : String) : String :=
  String.mk ((((s.data.dropWhile Char.isWhitespace).reverse.dropWhile
    Char.isWhitespace).dropWhile (fun c => c == '%')).reverse)

/-- Digit list to number, most significant first. -/
def digitsToNat (ds : List Char) : ℕ :=
  ds.foldl (fun a c => a * 10 + (c.toNat - 48)) 0

/-- Rust std's `str::parse::<f32>` restricted to plain decimal literals
(optional sign, integer part, optional '.' and fractional part, no exponent
and no inf/nan forms), returning the exact rational value of the literal.
This models the standard-library parser, which is not part of this
repository's sources. -/
def parseF32 (s : String) : Option ℚ :=
  let cs := s.toList
  let signAndRest : ℚ × List Char :=
    match cs with
    | '+' :: r => (1, r)
    | '-' :: r => (-1, r)
    | r => (1, r)
  let sign := signAndRest.1
  let rest := signAndRest.2
  let intPart := rest.takeWhile Char.isDigit
  let rest2 := rest.dropWhile Char.isDigit
  match rest2 with
  | [] =>
    if intPart.isEmpty then none
    else some (sign * (digitsToNat intPart : ℚ))
  | '.' :: frac =>
    if frac.all Char.isDigit && !(intPart.isEmpty && frac.isEmpty) then
      some (sign * ((digitsToNat intPart : ℚ)
        + (digitsToNat frac : ℚ) / (10 ^ frac.length)))
    else none
  | _ => none

/-- The `for (index, item) in items.iter().enumerate() { if index != i
\x7b others += item.weight \x7d }` loop of `Wheel::apply_pct_input`, with the
enumeration counter made explicit. -/
def othersWeightSum (i : ℕ) : List Item → ℕ → ℕ
  | [], _ => 0
  | it :: rest, idx =>
    (if idx ≠ i then it.weight else 0) + othersWeightSum i rest (idx + 1)

/-- The clamping step of `Wheel::apply_pct_input`:
`pct.clamp(min_pct, max_pct)` with `min_pct = 1.0` and
`max_pct = (100.0 - (number_of_items - 1.0)).max(1.0)`.  Rust `clamp` is
`min (max pct lo) hi` (the bounds satisfy `lo ≤ hi` here, so it cannot
panic). -/
def clampedPct (pct : ℚ) (number_of_items : ℕ) : ℚ :=
  min (max pct 1) (max (100 - ((number_of_items : ℚ) - 1)) 1)

/-- The `if others_total_weight == 0 \x7b others_total_weight = 1 \x7d` floor
of `Wheel::apply_pct_input`. -/
def othersFloored (o : ℕ) : ℕ := if o = 0 then 1 else o

/-- The new-weight computation of `Wheel::apply_pct_input`:
`((clamped_pct / (100.0 - clamped_pct)) * others as f32).round() as u32`.
The division is by zero exactly when `clamped = 100` (only reachable with a
single item); in `f32` that is a positive number divided by `+0.0`, giving
`+∞`, which `round` keeps and the `as u32` cast saturates to `u32::MAX` —
modelled by the explicit first branch. -/
def pctNewWeight (clamped : ℚ) (others : ℕ) : ℕ :=
  if (100 : ℚ) - clamped = 0 then u32Max
  else castU32 (roundHalfAway ((clamped / (100 - clamped)) * (others : ℚ)))

/-- `Wheel::apply_pct_input`.  Returns the updated wheel and the `bool` the
Rust method returns. -/
def apply_pct_input (w : Wheel) (item_index : ℕ) : Wheel × Bool :=
  let raw_input := stripPct (w.state.pct_bufs.getD item_index "")
  match parseF32 raw_input with
  | none => (w, false)
  | some pct =>
    let clamped_pct := clampedPct pct w.data.items.length
    let others_total_weight := othersFloored (othersWeightSum item_index w.data.items 0)
    let new_weight := pctNewWeight clamped_pct others_total_weight
    let items2 := w.data.items.set item_index
      { w.data.items.getD item_index default with weight := max new_weight 1 }
    ({ w with data := { w.data with items := items2 } }, true)

/-- `Wheel::spin`.  The velocity `v` is the value
`rand::thread_rng().gen_range(0.5..0.8)` would return (injected randomness). -/
def spin (w : Wheel) (v : ℚ) : Wheel :=
  { w with state := { w.state with
      velocity := v
      rotation := 0
      is_spinning := true
      has_stopped := false
      stop_delay := 0
      editing_idx := none } }

/-- The normalized fraction of the circle computed inside `Wheel::get_winner`:
`((-PI/2 + rotation) % (2*PI) + 2*PI) % (2*PI)` divided by `2*PI`. -/
def fractionOfCircle (w : Wheel) : ℚ :=
  fmod (fmod (-PI / 2 + w.state.rotation) (2 * PI) + 2 * PI) (2 * PI) / (2 * PI)

/-- The cumulative-fraction walk of `Wheel::get_winner`: accumulate
`weight/total` over the items, returning the first index where the running
total strictly exceeds `fraction`. -/
def winnerAux (fraction total : ℚ) : List Item → ℚ → ℕ → Option ℕ
  | [], _, _ => none
  | item :: rest, cumulative, index =>
    let c2 := cumulative + (item.weight : ℚ) / total
    if fraction < c2 then some index
    else winnerAux fraction total rest c2 (index + 1)

/-- `Wheel::get_winner`: 0 for an empty list, otherwise the first index whose
cumulative fraction exceeds the normalized rotation fraction, falling back to
the last index. -/
def get_winner (w : Wheel) : ℕ :=
  if w.data.items.isEmpty then 0
  else
    match winnerAux (fractionOfCircle w) (total_weight w : ℚ)
        w.data.items 0 0 with
    | some index => index
    | none => w.data.items.length - 1

/-- `Wheel::tick`.  `rngV` is the velocity the RNG would hand to `spin()`
when the auto-spin branch fires (injected randomness). -/
def tick (w : Wheel) (dt : ℚ) (rngV : ℚ) : Wheel × Bool :=
  if w.state.is_spinning = false then (w, false)
  else if w.state.has_stopped = false then
    let vel := w.state.velocity * (39 / 40)
    ({ w with state := { w.state with
        rotation := w.state.rotation + w.state.velocity
        velocity := vel
        has_stopped := decide (vel < 1 / 1000) } }, false)
  else
    let sd := w.state.stop_delay + dt
    if 1 ≤ sd then
      let w1 : Wheel :=
        { w with state := { w.state with stop_delay := sd, is_spinning := false } }
      if w1.data.items.isEmpty then (w1, false)
      else
        let winning_index := get_winner w1
        let winning_name := (w1.data.items.getD winning_index default).name
        let w2 : Wheel := { w1 with data := { w1.data with
          winner_history := winning_name :: w1.data.winner_history } }
        let w3 : Wheel :=
          if w2.data.remove_winner then
            { w2 with
              data := { w2.data with
                items := w2.data.items.eraseIdx winning_index
                removed_items := w2.data.removed_items
                  ++ [w2.data.items.getD winning_index default] }
              state := { w2.state with
                pct_bufs := w2.state.pct_bufs.eraseIdx winning_index } }
          else w2
        if w3.data.auto_spin && w3.data.remove_winner
            && decide (1 < w3.data.items.length) then
          (spin w3 rngV, true)
        else (w3, true)
    else ({ w with state := { w.state with stop_delay := sd } }, false)

/-- The add-item action of `WheelApp::update` (the `(pressed_enter ||
clicked_add) && has_text` branch): new weight is the integer average of the
current weights floored to 1, or 1 on an empty list; percentage buffers are
invalidated and extended; the input box is cleared. -/
def add_item (w : Wheel) : Wheel :=
  if w.state.input_text.trim.isEmpty then w
  else
    let avg_weight : ℕ :=
      if w.data.items.isEmpty then 1
      else max (total_weight w / w.data.items.length) 1
    let new_item : Item := { name := w.state.input_text.trim, weight := avg_weight }
    { w with
      data := { w.data with items := w.data.items ++ [new_item] }
      state := { w.state with
        pct_bufs := (w.state.pct_bufs.map (fun _ => "")) ++ [""]
        input_text := "" } }

/-- Iterated `tick` with a fixed frame time and injected RNG value. -/
def tickN (w : Wheel) (dt rngV : ℚ) : ℕ → Wheel
  | 0 => w
  | n + 1 => (tick (tickN w dt rngV n) dt rngV).1

/-! Statement-side vocabulary, used to phrase the properties independently of
the accumulator-style recursion of the source functions. -/

/-- The list of cumulative fractions `c + w₀/t, c + w₀/t + w₁/t, …` of the
walk in `Wheel::get_winner`. -/
def cumList (total : ℚ) : ℚ → List Item → List ℚ
  | _, [] => []
  | c, it :: rest =>
    (c + (it.weight : ℚ) / total) :: cumList total (c + (it.weight : ℚ) / total) rest

/-- First index of the list whose entry strictly exceeds `f`. -/
def findIdxFrom (f : ℚ) : List ℚ → Option ℕ
  | [] => none
  | c :: rest => if f < c then some 0 else (findIdxFrom f rest).map (· + 1)

/-- A quiescent `WheelState`, used to build concrete wheels for instantiating
the universally quantified theorems. -/
def baseState : WheelState :=
  { input_text := ""
    is_spinning := false
    rotation := 0
    velocity := 0
    has_stopped := false
    stop_delay := 0
    editing_idx := none
    edit_buf := ""
    pct_bufs := [] }

/-- A concrete wheel with the given items and percentage buffers. -/
def mkTestWheel (items : List Item) (bufs : List String) : Wheel :=
  { data := {
      name := "W"
      items := items
      removed_items := []
      winner_history := []
      remove_winner := false
      auto_spin := false }
    state := { baseState with pct_bufs := bufs } }

/-- Concrete wheel instantiating C1. -/
def wC1 : Wheel :=
  { mkTestWheel [⟨"A", 2⟩, ⟨"B", 1⟩, ⟨"C", 3⟩] ["", "", ""] with
    state := { baseState with rotation := 10, pct_bufs := ["", "", ""] } }

/-- Concrete wheel instantiating C3 (the spec's own scenario: two items of
weight 1, setting the first to 75%). -/
def wC3 : Wheel := mkTestWheel [⟨"A", 1⟩, ⟨"B", 1⟩] ["75", ""]

/-- Concrete wheel instantiating C5 (non-numeric percentage text). -/
def wC5 : Wheel := mkTestWheel [⟨"A", 1⟩, ⟨"B", 1⟩] ["abc", ""]

/-- Concrete wheel instantiating C8. -/
def wC8 : Wheel := mkTestWheel [⟨"A", 1⟩, ⟨"B", 1⟩] ["75", ""]

/-- Concrete wheel instantiating C9 (empty item list, pending input text). -/
def wC9 : Wheel :=
  { mkTestWheel [] [] with
    state := { baseState with input_text := "new" } }

/-- Concrete wheel instantiating C10 (a single item, percentage text 150). -/
def wC10 : Wheel := mkTestWheel [⟨"A", 7⟩] ["150"]

/-- Concrete wheel refuting C4 as stated: two items of weight 1, requesting
1% for the first. -/
def wC4 : Wheel := mkTestWheel [⟨"A", 1⟩, ⟨"B", 1⟩] ["1", ""]

/-- Concrete wheel instantiating the amended C4: the other item carries
weight 100 ≥ 50. -/
def wC4a : Wheel := mkTestWheel [⟨"A", 1⟩, ⟨"B", 100⟩] ["50", ""]

/-- Concrete wheel instantiating C2: settling, remove-winner set, the settle
timer about to reach 1 second. -/
def wC2 : Wheel :=
  { data := {
      name := "W"
      items := [⟨"A", 1⟩, ⟨"B", 1⟩, ⟨"C", 1⟩]
      removed_items := []
      winner_history := ["old"]
      remove_winner := true
      auto_spin := false }
    state := { baseState with
      is_spinning := true
      has_stopped := true
      rotation := 10
      stop_delay := 1/2
      pct_bufs := ["", "", ""] } }

/-- Concrete wheel instantiating C6: mid-deceleration. -/
def wC6 : Wheel :=
  { mkTestWheel [⟨"A", 1⟩, ⟨"B", 1⟩] ["", ""] with
    state := { baseState with
      is_spinning := true
      has_stopped := false
      rotation := 3
      velocity := 1/2
      pct_bufs := ["", ""] } }

/-- Concrete wheel instantiating C7: freshly spun with velocity 1/2. -/
def wC7 : Wheel :=
  { mkTestWheel [⟨"A", 1⟩, ⟨"B", 1⟩] ["", ""] with
    state := { baseState with
      is_spinning := true
      velocity := 1/2
      pct_bufs := ["", ""] } }

end GerbilDecide

namespace GerbilDecide

lemma two_pi_pos : (0 : ℚ) < 2 * PI := by norm_num [PI]

lemma fmod_lower (a b : ℚ) (hb : 0 < b) : -b < fmod a b := by
  unfold fmod truncQ
  have hb' : b ≠ 0 := ne_of_gt hb
  have ha : b * (a / b) = a := by field_simp
  by_cases h : 0 ≤ a / b
  · rw [if_pos h]
    have h1 : ((⌊a / b⌋ : ℤ) : ℚ) ≤ a / b := Int.floor_le _
    nlinarith [mul_le_mul_of_nonneg_left h1 hb.le]
  · rw [if_neg h]
    have h2 : (a / b : ℚ) ≤ (⌈a / b⌉ : ℤ) := Int.le_ceil _
    have h3 : ((⌈a / b⌉ : ℤ) : ℚ) < a / b + 1 := Int.ceil_lt_add_one _
    nlinarith [mul_lt_mul_of_pos_left h3 hb]

lemma fmod_upper (a b : ℚ) (hb : 0 < b) : fmod a b < b := by
  unfold fmod truncQ
  have hb' : b ≠ 0 := ne_of_gt hb
  have ha : b * (a / b) = a := by field_simp
  by_cases h : 0 ≤ a / b
  · rw [if_pos h]
    have h2 : a / b < (⌊a / b⌋ : ℤ) + 1 := Int.lt_floor_add_one _
    nlinarith [mul_lt_mul_of_pos_left h2 hb]
  · rw [if_neg h]
    have h2 : (a / b : ℚ) ≤ (⌈a / b⌉ : ℤ) := Int.le_ceil _
    nlinarith [mul_le_mul_of_nonneg_left h2 hb.le]

lemma fmod_nonneg (a b : ℚ) (ha : 0 ≤ a) (hb : 0 < b) : 0 ≤ fmod a b := by
  unfold fmod truncQ
  have h : 0 ≤ a / b := div_nonneg ha hb.le
  rw [if_pos h]
  have h1 : ((⌊a / b⌋ : ℤ) : ℚ) ≤ a / b := Int.floor_le _
  have ha' : b * (a / b) = a := by field_simp
  nlinarith [mul_le_mul_of_nonneg_left h1 hb.le]

lemma fractionOfCircle_nonneg (w : Wheel) : 0 ≤ fractionOfCircle w := by
  unfold fractionOfCircle
  apply div_nonneg _ two_pi_pos.le
  apply fmod_nonneg _ _ _ two_pi_pos
  have := fmod_lower (-PI / 2 + w.state.rotation) (2 * PI) two_pi_pos
  linarith

lemma cumList_length (t : ℚ) :
    ∀ (l : List Item) (c : ℚ), (cumList t c l).length = l.length := by
  intro l
  induction l with
  | nil => intro c; rfl
  | cons it rest ih => intro c; simp [cumList, ih]

lemma findIdxFrom_lt_length (f : ℚ) :
    ∀ (l : List ℚ) (k : ℕ), findIdxFrom f l = some k → k < l.length := by
  intro l
  induction l with
  | nil => intro k h; simp [findIdxFrom] at h
  | cons c rest ih =>
    intro k h
    by_cases hc : f < c
    · simp [findIdxFrom, hc] at h
      simp [← h]
    · simp [findIdxFrom, hc] at h
      obtain ⟨k', hk', rfl⟩ := h
      have := ih k' hk'
      simp only [List.length_cons]
      omega

lemma winnerAux_eq_findIdxFrom (f t : ℚ) :
    ∀ (l : List Item) (c : ℚ) (i : ℕ),
      winnerAux f t l c i
        = (findIdxFrom f (cumList t c l)).map (fun k => i + k) := by
  intro l
  induction l with
  | nil => intro c i; rfl
  | cons it rest ih =>
    intro c i
    by_cases h : f < c + (it.weight : ℚ) / t
    · simp [winnerAux, cumList, findIdxFrom, h]
    · simp only [winnerAux, cumList, findIdxFrom, if_neg h]
      rw [ih]
      cases findIdxFrom f (cumList t (c + (it.weight : ℚ) / t) rest) with
      | none => rfl
      | some k => simp; omega

lemma get_winner_eq (w : Wheel) (h : w.data.items ≠ []) :
    get_winner w
      = (findIdxFrom (fractionOfCircle w)
          (cumList (total_weight w : ℚ) 0 w.data.items)).getD
          (w.data.items.length - 1) := by
  unfold get_winner
  rw [if_neg (by simpa [List.isEmpty_iff] using h)]
  rw [winnerAux_eq_findIdxFrom]
  cases findIdxFrom (fractionOfCircle w)
      (cumList (total_weight w : ℚ) 0 w.data.items) with
  | none => rfl
  | some k => simp

lemma get_winner_congr (w w' : Wheel) (hi : w.data.items = w'.data.items)
    (hr : w.state.rotation = w'.state.rotation) :
    get_winner w = get_winner w' := by
  unfold get_winner fractionOfCircle total_weight
  simp only [hi, hr]

lemma get_winner_lt_length (w : Wheel) (h : w.data.items ≠ []) :
    get_winner w < w.data.items.length := by
  rw [get_winner_eq w h]
  have hpos : 0 < w.data.items.length := List.length_pos.mpr h
  cases hf : findIdxFrom (fractionOfCircle w)
      (cumList (total_weight w : ℚ) 0 w.data.items) with
  | none => simpa using Nat.sub_lt hpos one_pos
  | some k =>
    have := findIdxFrom_lt_length _ _ _ hf
    rw [cumList_length] at this
    simpa using this

/-- C1: for every non-empty item list and every rotation, `get_winner`
returns an index in `[0, items.length)`; the normalized fraction obtained by
the double modulo is non-negative; the returned index is the first one whose
cumulative weight fraction exceeds the fraction, falling back to the last
index when no cumulative fraction exceeds it; and an empty list resolves to
index 0. -/
theorem c1_resolve_in_range (w : Wheel) :
    (w.data.items = [] → get_winner w = 0)
    ∧ (w.data.items ≠ [] →
        get_winner w < w.data.items.length
        ∧ 0 ≤ fractionOfCircle w
        ∧ get_winner w
            = (findIdxFrom (fractionOfCircle w)
                (cumList (total_weight w : ℚ) 0 w.data.items)).getD
                (w.data.items.length - 1)) := by
  constructor
  · intro h
    unfold get_winner
    rw [if_pos (by simpa [List.isEmpty_iff] using h)]
  · intro h
    exact ⟨get_winner_lt_length w h, fractionOfCircle_nonneg w, get_winner_eq w h⟩

/-- Instantiation of C1 at a concrete wheel. -/
theorem c1_resolve_in_range_witness :
    wC1.data.items ≠ [] ∧ get_winner wC1 < wC1.data.items.length :=
  ⟨by decide, ((c1_resolve_in_range wC1).2 (by decide)).1⟩

lemma apply_pct_input_none (w : Wheel) (i : ℕ)
    (hp : parseF32 (stripPct (w.state.pct_bufs.getD i "")) = none) :
    apply_pct_input w i = (w, false) := by
  simp only [apply_pct_input, hp]

lemma apply_pct_input_some (w : Wheel) (i : ℕ) (p : ℚ)
    (hp : parseF32 (stripPct (w.state.pct_bufs.getD i "")) = some p) :
    apply_pct_input w i =
      ({ w with data := { w.data with
          items := w.data.items.set i
            { w.data.items.getD i default with
              weight := max (pctNewWeight (clampedPct p w.data.items.length)
                (othersFloored (othersWeightSum i w.data.items 0))) 1 } } },
        true) := by
  simp only [apply_pct_input, hp]

lemma othersWeightSum_of_lt (l : List Item) :
    ∀ (i n : ℕ), i < n → othersWeightSum i l n = (l.map Item.weight).sum := by
  induction l with
  | nil => intro i n _; rfl
  | cons it rest ih =>
    intro i n hin
    have hne : n ≠ i := by omega
    simp only [othersWeightSum, if_pos hne, List.map_cons, List.sum_cons]
    rw [ih i (n + 1) (by omega)]

lemma othersWeightSum_eq_eraseIdx_aux :
    ∀ (l : List Item) (i n : ℕ), i < l.length →
      othersWeightSum (n + i) l n = ((l.eraseIdx i).map Item.weight).sum := by
  intro l
  induction l with
  | nil => intro i n h; simp at h
  | cons it rest ih =>
    intro i n h
    cases i with
    | zero =>
      simp only [othersWeightSum, Nat.add_zero, ne_eq, not_true_eq_false,
        if_neg, List.eraseIdx]
      rw [othersWeightSum_of_lt rest n (n + 1) (by omega)]
      simp
    | succ i' =>
      have hne : n ≠ n + (i' + 1) := by omega
      simp only [othersWeightSum, if_pos hne, List.eraseIdx, List.map_cons,
        List.sum_cons]
      have : n + (i' + 1) = (n + 1) + i' := by omega
      rw [this, ih i' (n + 1) (by simpa using h)]

lemma othersWeightSum_eq_eraseIdx (l : List Item) (i : ℕ) (h : i < l.length) :
    othersWeightSum i l 0 = ((l.eraseIdx i).map Item.weight).sum := by
  have := othersWeightSum_eq_eraseIdx_aux l i 0 h
  simpa using this

lemma sum_map_set (l : List Item) (i : ℕ) (x : Item) (h : i < l.length) :
    ((l.set i x).map Item.weight).sum
      = x.weight + ((l.eraseIdx i).map Item.weight).sum := by
  induction l generalizing i with
  | nil => simp at h
  | cons a rest ih =>
    cases i with
    | zero => simp [List.set, List.eraseIdx]
    | succ i' =>
      simp only [List.set, List.eraseIdx, List.map_cons, List.sum_cons,
        ih i' (by simpa using h)]
      omega

lemma sum_map_set_weight (l : List Item) (i : ℕ) (v : ℕ) (h : i < l.length) :
    (((l.map Item.weight).set i v)).sum
      = v + ((l.eraseIdx i).map Item.weight).sum := by
  induction l generalizing i with
  | nil => simp at h
  | cons a rest ih =>
    cases i with
    | zero => simp [List.eraseIdx]
    | succ i' =>
      simp only [List.map_cons, List.set, List.eraseIdx, List.sum_cons,
        ih i' (by simpa using h)]
      omega

/-- C5: when the trimmed, `%`-stripped percentage text does not parse as a
float, `apply_pct_input` returns `false` and the entire wheel — every item
weight included — is unchanged. -/
theorem c5_parse_failure_no_mutation (w : Wheel) (i : ℕ)
    (hp : parseF32 (stripPct (w.state.pct_bufs.getD i "")) = none) :
    apply_pct_input w i = (w, false) :=
  apply_pct_input_none w i hp

/-- Instantiation of C5 at the percentage text "abc". -/
theorem c5_parse_failure_no_mutation_witness :
    parseF32 (stripPct (wC5.state.pct_bufs.getD 0 "")) = none
    ∧ apply_pct_input wC5 0 = (wC5, false) :=
  ⟨by with_unfolding_all decide,
    c5_parse_failure_no_mutation wC5 0 (by with_unfolding_all decide)⟩

/-- C3: when the percentage text of item `i` parses to `p`,
`apply_pct_input` returns `true`, replaces item `i`'s weight with
`max 1 (round(clamped/(100-clamped) * othersWeight))` — `clamped` being `p`
clamped to `[1, max(1, 100-(N-1))]` and `othersWeight` the sum of all other
items' weights floored to 1 — and leaves the name of item `i` and every
other item unchanged. -/
theorem c3_apply_pct_success (w : Wheel) (i : ℕ) (p : ℚ)
    (hi : i < w.data.items.length)
    (hp : parseF32 (stripPct (w.state.pct_bufs.getD i "")) = some p) :
    (apply_pct_input w i).2 = true
    ∧ ((apply_pct_input w i).1.data.items.getD i default).weight
        = max (pctNewWeight (clampedPct p w.data.items.length)
            (othersFloored (((w.data.items.eraseIdx i).map Item.weight).sum))) 1
    ∧ ((apply_pct_input w i).1.data.items.getD i default).name
        = (w.data.items.getD i default).name
    ∧ (∀ j, j ≠ i → (apply_pct_input w i).1.data.items.getD j default
        = w.data.items.getD j default)
    ∧ (apply_pct_input w i).1.data.items.length = w.data.items.length := by
  rw [apply_pct_input_some w i p hp]
  refine ⟨rfl, ?_, ?_, ?_, ?_⟩
  · rw [← othersWeightSum_eq_eraseIdx w.data.items i hi]
    simp [List.getD_eq_getElem?_getD, List.getElem?_set_self hi]
  · simp [List.getD_eq_getElem?_getD, List.getElem?_set_self hi]
  · intro j hj
    simp [List.getD_eq_getElem?_getD, List.getElem?_set_ne (Ne.symm hj)]
  · simp

/-- Instantiation of C3 at the spec's own scenario: two items of weight 1,
setting the first to 75% gives it weight `round(0.75/0.25 * 1) = 3`. -/
theorem c3_apply_pct_success_witness :
    ((apply_pct_input wC3 0).1.data.items.getD 0 default).weight = 3 := by
  have h := (c3_apply_pct_success wC3 0 75 (by decide)
    (by with_unfolding_all decide)).2.1
  rw [h]
  with_unfolding_all decide

/-- C10: with a single item and any percentage text parsing to `p ≥ 100`,
the percentage is clamped to exactly 100, the `f32` ratio
`clamped/(100-clamped)` is a division by zero yielding `+∞`, the `as u32`
cast saturates, and the item's weight becomes `u32::MAX = 4294967295`;
the call returns `true`. -/
theorem c10_single_item_saturates (w : Wheel) (p : ℚ)
    (hlen : w.data.items.length = 1)
    (hp : parseF32 (stripPct (w.state.pct_bufs.getD 0 "")) = some p)
    (hp100 : 100 ≤ p) :
    clampedPct p w.data.items.length = 100
    ∧ (apply_pct_input w 0).2 = true
    ∧ ((apply_pct_input w 0).1.data.items.getD 0 default).weight
        = 4294967295 := by
  have hc : clampedPct p w.data.items.length = 100 := by
    rw [hlen]
    unfold clampedPct
    rw [max_eq_left (by linarith : (1 : ℚ) ≤ p)]
    norm_num
    linarith
  refine ⟨hc, ?_, ?_⟩
  · rw [apply_pct_input_some w 0 p hp]
  · rw [apply_pct_input_some w 0 p hp]
    have h0 : 0 < w.data.items.length := by omega
    simp only [List.getD_eq_getElem?_getD, List.getElem?_set_self h0, Option.getD_some]
    rw [hc]
    unfold pctNewWeight u32Max
    norm_num

/-- Instantiation of C10: one item, text "150". -/
theorem c10_single_item_saturates_witness :
    ((apply_pct_input wC10 0).1.data.items.getD 0 default).weight
      = 4294967295 :=
  (c10_single_item_saturates wC10 150 (by decide)
    (by with_unfolding_all decide) (by norm_num)).2.2

/-- C8: weights are never set below 1: `Item::new` gives weight 1;
`apply_pct_input` preserves "all weights ≥ 1"; the add-item action
preserves "all weights ≥ 1" (its average-derived weight is floored to 1). -/
theorem c8_weight_ge_one :
    (∀ name, (Item.new name).weight = 1)
    ∧ (∀ (w : Wheel) (i : ℕ), (∀ it ∈ w.data.items, 1 ≤ it.weight) →
        ∀ it ∈ (apply_pct_input w i).1.data.items, 1 ≤ it.weight)
    ∧ (∀ (w : Wheel), (∀ it ∈ w.data.items, 1 ≤ it.weight) →
        ∀ it ∈ (add_item w).data.items, 1 ≤ it.weight) := by
  refine ⟨fun _ => rfl, ?_, ?_⟩
  · intro w i hall it hit
    cases hp : parseF32 (stripPct (w.state.pct_bufs.getD i "")) with
    | none =>
      rw [apply_pct_input_none w i hp] at hit
      exact hall it hit
    | some p =>
      rw [apply_pct_input_some w i p hp] at hit
      simp only at hit
      rcases List.mem_or_eq_of_mem_set hit with h | h
      · exact hall it h
      · rw [h]
        simp
  · intro w hall it hit
    unfold add_item at hit
    by_cases he : w.state.input_text.trim.isEmpty
    · rw [if_pos he] at hit
      exact hall it hit
    · rw [if_neg he] at hit
      simp only [List.mem_append, List.mem_singleton] at hit
      rcases hit with h | h
      · exact hall it h
      · rw [h]
        by_cases hi : w.data.items.isEmpty <;> simp [hi]

/-- Instantiation of C8: applying 75% on a two-item wheel keeps all weights
at least 1. -/
theorem c8_weight_ge_one_witness :
    1 ≤ ((apply_pct_input wC8 0).1.data.items.getD 0 default).weight :=
  c8_weight_ge_one.2.1 wC8 0 (by decide) _ (by with_unfolding_all decide)

/-- C9: the add-item action gives the new item weight
`max 1 (total_weight / item count)` (integer division), and exactly 1 when
the item list is empty; the new item is appended at the end. -/
theorem c9_add_item_weight (w : Wheel)
    (h : w.state.input_text.trim.isEmpty = false) :
    (add_item w).data.items
      = w.data.items ++ [{
          name := w.state.input_text.trim
          weight := if w.data.items.isEmpty then 1
            else max (total_weight w / w.data.items.length) 1 }]
    ∧ (w.data.items = [] →
        (add_item w).data.items
          = [{ name := w.state.input_text.trim, weight := 1 }]) := by
  constructor
  · unfold add_item
    rw [if_neg (by simp [h])]
  · intro hemp
    unfold add_item
    rw [if_neg (by simp [h])]
    simp [hemp]

/-- Instantiation of C9 on an empty item list: the new item's weight is
exactly 1. -/
theorem c9_add_item_weight_witness :
    (add_item wC9).data.items = [{ name := wC9.state.input_text.trim, weight := 1 }] :=
  (c9_add_item_weight wC9 (by with_unfolding_all decide)).2 rfl

/-- C2: in the Settling phase with a non-empty item list, the tick on which
the settle timer reaches 1.0 s returns `true`, pushes the resolved winner's
name to the front of the history, moves exactly the winning item to
`removed_items` when `remove_winner` is set (and touches no item otherwise),
immediately restarts the spin when `auto_spin` and `remove_winner` are set
and more than one item remains (otherwise `is_spinning` ends up `false`);
any earlier settling tick only accumulates the timer and returns `false`. -/
theorem c2_tick_finalizes (w : Wheel) (dt rngV : ℚ)
    (h1 : w.state.is_spinning = true) (h2 : w.state.has_stopped = true)
    (h3 : w.data.items ≠ []) :
    (1 ≤ w.state.stop_delay + dt →
      (tick w dt rngV).2 = true
      ∧ (tick w dt rngV).1.data.winner_history
          = (w.data.items.getD (get_winner w) default).name :: w.data.winner_history
      ∧ (w.data.remove_winner = true →
          (tick w dt rngV).1.data.items = w.data.items.eraseIdx (get_winner w)
          ∧ (tick w dt rngV).1.data.removed_items
              = w.data.removed_items ++ [w.data.items.getD (get_winner w) default])
      ∧ (w.data.remove_winner = false →
          (tick w dt rngV).1.data.items = w.data.items
          ∧ (tick w dt rngV).1.data.removed_items = w.data.removed_items)
      ∧ ((w.data.auto_spin = true ∧ w.data.remove_winner = true
            ∧ 1 < (w.data.items.eraseIdx (get_winner w)).length) →
          (tick w dt rngV).1.state.is_spinning = true
          ∧ (tick w dt rngV).1.state.rotation = 0
          ∧ (tick w dt rngV).1.state.velocity = rngV
          ∧ (tick w dt rngV).1.state.has_stopped = false
          ∧ (tick w dt rngV).1.state.stop_delay = 0)
      ∧ (¬ (w.data.auto_spin = true ∧ w.data.remove_winner = true
            ∧ 1 < (w.data.items.eraseIdx (get_winner w)).length) →
          (tick w dt rngV).1.state.is_spinning = false))
    ∧ (w.state.stop_delay + dt < 1 →
        (tick w dt rngV).2 = false
        ∧ (tick w dt rngV).1
            = { w with state := { w.state with
                stop_delay := w.state.stop_delay + dt } }) := by
  have hni : w.data.items.isEmpty = false := by
    simpa [List.isEmpty_iff] using h3
  have hgw : ∀ (it : String) (isp : Bool) (v : ℚ) (hs : Bool) (sd : ℚ)
      (ed : Option ℕ) (eb : String) (pb : List String),
      get_winner ⟨w.data, ⟨it, isp, w.state.rotation, v, hs, sd, ed, eb, pb⟩⟩
        = get_winner w :=
    fun _ _ _ _ _ _ _ _ => get_winner_congr _ _ rfl rfl
  constructor
  · intro hsd
    cases hrw : w.data.remove_winner with
    | false =>
      simp [tick, h1, h2, hni, hrw, if_pos hsd, hgw]
    | true =>
      by_cases hlen : 1 < (w.data.items.eraseIdx (get_winner w)).length
      · cases has : w.data.auto_spin with
        | false =>
          simp [tick, h1, h2, hni, hrw, has, if_pos hsd, hlen, hgw, spin]
        | true =>
          simp [tick, h1, h2, hni, hrw, has, if_pos hsd, hlen, hgw, spin]
      · simp [tick, h1, h2, hni, hrw, if_pos hsd, hlen, hgw]
  · intro hsd
    simp [tick, h1, h2, if_neg (not_le.mpr hsd)]

/-- Instantiation of C2 at a concrete settling wheel: the tick with
`dt = 3/4` crosses the 1-second settle threshold and finalizes. -/
theorem c2_tick_finalizes_witness :
    (tick wC2 (3/4) (3/5)).2 = true
    ∧ (tick wC2 (3/4) (3/5)).1.data.items
        = wC2.data.items.eraseIdx (get_winner wC2) := by
  have h := (c2_tick_finalizes wC2 (3/4) (3/5) rfl rfl (by decide)).1
    (by norm_num [wC2, baseState])
  exact ⟨h.1, (h.2.2.1 rfl).1⟩

/-- C6: while decelerating (spinning, not yet stopped), a tick — regardless
of `dt` — adds exactly the current velocity to the rotation, multiplies the
velocity by exactly 0.975, sets `has_stopped` exactly when the new velocity
drops below 0.001, and returns `false`; afterwards (settling), the rotation
is never changed again for the rest of that spin — a settling tick leaves it
unchanged unless it finalizes and immediately starts a new spin. -/
theorem c6_tick_decelerating (w : Wheel) (dt rngV : ℚ)
    (h1 : w.state.is_spinning = true) :
    (w.state.has_stopped = false →
      (tick w dt rngV).2 = false
      ∧ (tick w dt rngV).1.state.rotation
          = w.state.rotation + w.state.velocity
      ∧ (tick w dt rngV).1.state.velocity = w.state.velocity * (39 / 40)
      ∧ ((tick w dt rngV).1.state.has_stopped = true
          ↔ w.state.velocity * (39 / 40) < 1 / 1000)
      ∧ (tick w dt rngV).1.state.is_spinning = true
      ∧ (tick w dt rngV).1.data = w.data)
    ∧ (w.state.has_stopped = true →
        (tick w dt rngV).1.state.rotation = w.state.rotation
        ∨ ((tick w dt rngV).1.state.is_spinning = true
            ∧ (tick w dt rngV).1.state.rotation = 0
            ∧ (tick w dt rngV).1.state.velocity = rngV
            ∧ (tick w dt rngV).1.state.has_stopped = false)) := by
  constructor
  · intro h2
    simp [tick, h1, h2]
  · intro h2
    have hgw : ∀ (it : String) (isp : Bool) (v : ℚ) (hs : Bool) (sd : ℚ)
        (ed : Option ℕ) (eb : String) (pb : List String),
        get_winner ⟨w.data, ⟨it, isp, w.state.rotation, v, hs, sd, ed, eb, pb⟩⟩
          = get_winner w :=
      fun _ _ _ _ _ _ _ _ => get_winner_congr _ _ rfl rfl
    by_cases hsd : 1 ≤ w.state.stop_delay + dt
    · by_cases hni : w.data.items.isEmpty = true
      · left
        simp [tick, h1, h2, if_pos hsd, hni]
      · have hni' : w.data.items.isEmpty = false := by
          simpa using hni
        cases hrw : w.data.remove_winner with
        | false =>
          left
          simp [tick, h1, h2, if_pos hsd, hni', hrw]
        | true =>
          cases has : w.data.auto_spin with
          | false =>
            left
            simp [tick, h1, h2, if_pos hsd, hni', hrw, has]
          | true =>
            by_cases hlen : 1 < (w.data.items.eraseIdx (get_winner w)).length
            · right
              simp [tick, spin, h1, h2, if_pos hsd, hni', hrw, has, hlen, hgw]
            · left
              simp [tick, h1, h2, if_pos hsd, hni', hrw, has, hlen, hgw]
    · left
      simp [tick, h1, h2, if_neg hsd]

/-- C4 as stated is false on the code: with two items of weight 1 and
requested percentage 1, the target weight `round(1/99 * 1) = 0` is floored
to 1, so the read-back percentage is 50 — 49 units away from
`clamp(1, 1, 99) = 1`. -/
theorem c4_counterexample :
    ¬ (|(((apply_pct_input wC4 0).1.data.items.getD 0 default).weight : ℚ)
          / (total_weight (apply_pct_input wC4 0).1 : ℚ) * 100
        - clampedPct 1 wC4.data.items.length| ≤ 1) := by
  with_unfolding_all decide

set_option maxHeartbeats 1000000 in
/-- C4 amended: for an item list of size N ≥ 2 whose *other* items carry a
combined weight between 50 and 2^24, applying a percentage text parsing to
`p` to item `i` and reading back `weight[i]/total_weight()*100` lands within
1 unit of the clamped percentage `clamp(p, 1, max(1, 100-(N-1)))`.  (Below
combined weight 50 the integer rounding/flooring of the new weight can move
the read-back percentage by far more than 1 unit, and beyond 2^24 the
`as u32` saturation can; the counterexample shows the violation at
weights 1.) -/
theorem c4_probability_consistency_amended (w : Wheel) (i : ℕ) (p : ℚ)
    (hi : i < w.data.items.length)
    (hN : 2 ≤ w.data.items.length)
    (hp : parseF32 (stripPct (w.state.pct_bufs.getD i "")) = some p)
    (hO1 : 50 ≤ ((w.data.items.eraseIdx i).map Item.weight).sum)
    (hO2 : ((w.data.items.eraseIdx i).map Item.weight).sum ≤ 2 ^ 24) :
    |(((apply_pct_input w i).1.data.items.getD i default).weight : ℚ)
        / (total_weight (apply_pct_input w i).1 : ℚ) * 100
      - clampedPct p w.data.items.length| ≤ 1 := by
  have happ := apply_pct_input_some w i p hp
  rw [othersWeightSum_eq_eraseIdx w.data.items i hi] at happ
  set O : ℕ := ((w.data.items.eraseIdx i).map Item.weight).sum with hOdef
  set c : ℚ := clampedPct p w.data.items.length with hcdef
  have hc1 : 1 ≤ c := by
    rw [hcdef]
    unfold clampedPct
    exact le_min (le_max_right _ _) (le_max_right _ _)
  have hc99 : c ≤ 99 := by
    rw [hcdef]
    unfold clampedPct
    have hN' : (2:ℚ) ≤ (w.data.items.length : ℚ) := by exact_mod_cast hN
    exact le_trans (min_le_right _ _) (max_le (by linarith) (by norm_num))
  have h100 : (0:ℚ) < 100 - c := by linarith
  have hOq1 : (50:ℚ) ≤ (O:ℚ) := by exact_mod_cast hO1
  have hOq2 : (O:ℚ) ≤ 2 ^ 24 := by exact_mod_cast hO2
  have hOflo : othersFloored O = O := by
    unfold othersFloored
    rw [if_neg (by omega)]
  rw [hOflo] at happ
  set x : ℚ := c / (100 - c) * (O:ℚ) with hxdef
  have hx0 : 0 ≤ x := by
    rw [hxdef]
    exact mul_nonneg (div_nonneg (by linarith) h100.le) (Nat.cast_nonneg _)
  have hround : roundHalfAway x = ⌊x + 1/2⌋ := by
    unfold roundHalfAway
    rw [if_pos hx0]
  set n : ℤ := ⌊x + 1/2⌋ with hndef
  have hn_high : (n:ℚ) ≤ x + 1/2 := by
    rw [hndef]
    exact Int.floor_le _
  have hn_low : x - 1/2 < (n:ℚ) := by
    have h := Int.lt_floor_add_one (x + 1/2)
    rw [← hndef] at h
    linarith
  have hcO : (50:ℚ) ≤ c * (O:ℚ) := by
    have h := mul_le_mul hc1 hOq1 (by norm_num) (by linarith)
    linarith
  have hxhalf : (1:ℚ)/2 ≤ x := by
    rw [hxdef, div_mul_eq_mul_div, le_div_iff₀ h100]
    linarith
  have hn1 : 1 ≤ n := by
    rw [hndef, Int.le_floor]
    push_cast
    linarith
  have hdivle : c / (100 - c) ≤ c := div_le_self (by linarith) (by linarith)
  have hxb : x ≤ 99 * 2 ^ 24 := by
    have h1 : x ≤ c * (O:ℚ) := by
      rw [hxdef]
      exact mul_le_mul_of_nonneg_right hdivle (Nat.cast_nonneg _)
    have h2 : c * (O:ℚ) ≤ 99 * 2 ^ 24 :=
      mul_le_mul hc99 hOq2 (Nat.cast_nonneg _) (by norm_num)
    linarith
  have hnle : n ≤ (u32Max : ℤ) := by
    have h2 : (n:ℚ) ≤ 4294967295 := by linarith
    have h3 : n ≤ (4294967295:ℤ) := by exact_mod_cast h2
    calc n ≤ 4294967295 := h3
      _ = (u32Max : ℤ) := by norm_num [u32Max]
  have hpnw : pctNewWeight c O = n.toNat := by
    unfold pctNewWeight
    rw [if_neg (by linarith : ¬ ((100:ℚ) - c = 0)), ← hxdef, hround]
    unfold castU32
    rw [min_eq_left hnle]
  have hW1 : 1 ≤ n.toNat := by omega
  have hmax : max (pctNewWeight c O) 1 = n.toNat := by
    rw [hpnw]
    exact max_eq_left hW1
  have hwval : ((apply_pct_input w i).1.data.items.getD i default).weight
      = n.toNat := by
    rw [happ]
    simp [List.getD_eq_getElem?_getD, List.getElem?_set_self hi, hmax]
  have hne : n.toNat + O ≠ 0 := by omega
  have htot : total_weight (apply_pct_input w i).1 = n.toNat + O := by
    rw [happ]
    simp [total_weight, hmax]
    rw [sum_map_set_weight _ _ _ hi, if_neg hne]
  have hn0 : (0:ℤ) ≤ n := by omega
  rw [hwval, htot]
  push_cast
  have hq : ((n.toNat : ℕ) : ℚ) = (n : ℚ) := by
    exact_mod_cast Int.toNat_of_nonneg hn0
  rw [hq]
  set nq : ℚ := (n : ℚ) with hnq
  have hnq1 : 1 ≤ nq := by
    rw [hnq]
    exact_mod_cast hn1
  have hd : 0 < nq + (O:ℚ) := by linarith
  have hxx : x * (100 - c) = c * (O:ℚ) := by
    rw [hxdef]
    field_simp
  have h3 : nq / (nq + (O:ℚ)) * 100 = nq * 100 / (nq + (O:ℚ)) := by ring
  rw [abs_le]
  rw [h3]
  constructor
  · have key : (100 - c) * (x - nq) ≤ (100 - c) * (1/2) :=
      mul_le_mul_of_nonneg_left (by linarith) (by linarith)
    have h1 : (c - 1) * (nq + (O:ℚ)) ≤ nq * 100 := by nlinarith [key, hxx]
    have h2 : c - 1 ≤ nq * 100 / (nq + (O:ℚ)) := (le_div_iff₀ hd).mpr h1
    linarith
  · have key : (100 - c) * (nq - x) ≤ (100 - c) * (1/2) :=
      mul_le_mul_of_nonneg_left (by linarith) (by linarith)
    have h1 : nq * 100 ≤ (c + 1) * (nq + (O:ℚ)) := by nlinarith [key, hxx]
    have h2 : nq * 100 / (nq + (O:ℚ)) ≤ c + 1 := (div_le_iff₀ hd).mpr h1
    linarith

/-- Instantiation of the amended C4: items of weight 1 and 100, setting the
first to 50%. -/
theorem c4_probability_consistency_amended_witness :
    |(((apply_pct_input wC4a 0).1.data.items.getD 0 default).weight : ℚ)
        / (total_weight (apply_pct_input wC4a 0).1 : ℚ) * 100
      - clampedPct 50 wC4a.data.items.length| ≤ 1 :=
  c4_probability_consistency_amended wC4a 0 50 (by decide) (by decide)
    (by with_unfolding_all decide) (by decide) (by decide)

/-- Instantiation of C6 at a concrete decelerating wheel. -/
theorem c6_tick_decelerating_witness :
    (tick wC6 (1/60) (3/5)).1.state.rotation
        = wC6.state.rotation + wC6.state.velocity
    ∧ (tick wC6 (1/60) (3/5)).1.state.velocity
        = wC6.state.velocity * (39 / 40) :=
  ⟨((c6_tick_decelerating wC6 (1/60) (3/5) rfl).1 rfl).2.1,
    ((c6_tick_decelerating wC6 (1/60) (3/5) rfl).1 rfl).2.2.1⟩

lemma tick_not_spinning (w : Wheel) (dt rngV : ℚ)
    (h : w.state.is_spinning = false) : tick w dt rngV = (w, false) := by
  simp [tick, h]

lemma tickN_add (w : Wheel) (dt rngV : ℚ) (m n : ℕ) :
    tickN w dt rngV (m + n) = tickN (tickN w dt rngV m) dt rngV n := by
  induction n with
  | zero => rfl
  | succ k ih =>
    show (tick (tickN w dt rngV (m + k)) dt rngV).1 = _
    rw [ih]
    rfl

lemma tickN_succ_front (w : Wheel) (dt rngV : ℚ) (n : ℕ) :
    tickN w dt rngV (n + 1) = tickN (tick w dt rngV).1 dt rngV n := by
  induction n with
  | zero => rfl
  | succ k ih =>
    show (tick (tickN w dt rngV (k + 1)) dt rngV).1 = _
    rw [ih]
    rfl

lemma tickN_stable (w : Wheel) (dt rngV : ℚ) (n : ℕ)
    (h : (tickN w dt rngV n).state.is_spinning = false) :
    ∀ k, tickN w dt rngV (n + k) = tickN w dt rngV n := by
  intro k
  induction k with
  | zero => rfl
  | succ k' ih =>
    show (tick (tickN w dt rngV (n + k')) dt rngV).1 = _
    rw [ih, tick_not_spinning _ _ _ h]

lemma decel_phase (dt rngV : ℚ) :
    ∀ (k : ℕ) (w : Wheel),
      w.state.is_spinning = true → w.state.has_stopped = false →
      0 ≤ w.state.velocity →
      w.state.velocity * (39/40) ^ (k + 1) < 1/1000 →
      ∃ j, j ≤ k + 1
        ∧ (tickN w dt rngV j).state.is_spinning = true
        ∧ (tickN w dt rngV j).state.has_stopped = true
        ∧ (tickN w dt rngV j).state.stop_delay = w.state.stop_delay
        ∧ (tickN w dt rngV j).data = w.data := by
  intro k
  induction k with
  | zero =>
    intro w h1 h2 hv hdec
    have hdec' : w.state.velocity * (39/40) < 1/1000 := by
      have : w.state.velocity * (39/40) ^ (0 + 1)
          = w.state.velocity * (39/40) := by ring
      linarith [this ▸ hdec]
    refine ⟨1, le_refl 1, by simp [tickN, tick, h1, h2], ?_,
      by simp [tickN, tick, h1, h2], by simp [tickN, tick, h1, h2]⟩
    have heq : (tickN w dt rngV 1).state.has_stopped
        = decide (w.state.velocity * (39/40) < 1/1000) := by
      simp [tickN, tick, h1, h2]
    rw [heq]
    exact decide_eq_true hdec'
  | succ k' ih =>
    intro w h1 h2 hv hdec
    by_cases hstop : (tick w dt rngV).1.state.has_stopped = true
    · exact ⟨1, by omega, by simp [tickN, tick, h1, h2], hstop,
        by simp [tickN, tick, h1, h2], by simp [tickN, tick, h1, h2]⟩
    · have h1' : (tick w dt rngV).1.state.is_spinning = true := by
        simp [tick, h1, h2]
      have h2' : (tick w dt rngV).1.state.has_stopped = false := by
        simpa using hstop
      have hveq : (tick w dt rngV).1.state.velocity
          = w.state.velocity * (39/40) := by
        simp [tick, h1, h2]
      have hv' : 0 ≤ (tick w dt rngV).1.state.velocity := by
        rw [hveq]
        nlinarith
      have hdec' : (tick w dt rngV).1.state.velocity * (39/40) ^ (k' + 1)
          < 1/1000 := by
        rw [hveq]
        calc w.state.velocity * (39/40) * (39/40) ^ (k' + 1)
            = w.state.velocity * (39/40) ^ (k' + 1 + 1) := by ring
          _ < 1/1000 := hdec
      obtain ⟨j, hj, hb1, hb2, hb3, hb4⟩ :=
        ih (tick w dt rngV).1 h1' h2' hv' hdec'
      have hsame3 : (tick w dt rngV).1.state.stop_delay
          = w.state.stop_delay := by
        simp [tick, h1, h2]
      have hsame4 : (tick w dt rngV).1.data = w.data := by
        simp [tick, h1, h2]
      refine ⟨j + 1, by omega, ?_, ?_, ?_, ?_⟩ <;>
        rw [tickN_succ_front]
      · exact hb1
      · exact hb2
      · rw [hb3, hsame3]
      · rw [hb4, hsame4]

lemma settle_finalize (w : Wheel) (dt rngV : ℚ)
    (h1 : w.state.is_spinning = true) (h2 : w.state.has_stopped = true)
    (hna : ¬ (w.data.auto_spin = true ∧ w.data.remove_winner = true))
    (hsd : 1 ≤ w.state.stop_delay + dt) :
    (tick w dt rngV).1.state.is_spinning = false := by
  by_cases hni : w.data.items.isEmpty = true
  · simp [tick, h1, h2, if_pos hsd, hni]
  · have hni' : w.data.items.isEmpty = false := by simpa using hni
    cases hrw : w.data.remove_winner with
    | false =>
      cases has : w.data.auto_spin with
      | false => simp [tick, h1, h2, if_pos hsd, hni', hrw, has]
      | true => simp [tick, h1, h2, if_pos hsd, hni', hrw, has]
    | true =>
      cases has : w.data.auto_spin with
      | false => simp [tick, h1, h2, if_pos hsd, hni', hrw, has]
      | true => exact absurd ⟨has, hrw⟩ hna

lemma settle_phase (dt rngV : ℚ) (hdt : 0 < dt) :
    ∀ (m : ℕ) (w : Wheel),
      w.state.is_spinning = true → w.state.has_stopped = true →
      ¬ (w.data.auto_spin = true ∧ w.data.remove_winner = true) →
      1 ≤ w.state.stop_delay + ((m : ℚ) + 1) * dt →
      ∃ j, j ≤ m + 1 ∧ (tickN w dt rngV j).state.is_spinning = false := by
  intro m
  induction m with
  | zero =>
    intro w h1 h2 hna hsd
    have hsd' : 1 ≤ w.state.stop_delay + dt := by
      push_cast at hsd
      linarith
    exact ⟨1, le_refl 1, settle_finalize w dt rngV h1 h2 hna hsd'⟩
  | succ m' ih =>
    intro w h1 h2 hna hsd
    by_cases hsd1 : 1 ≤ w.state.stop_delay + dt
    · exact ⟨1, by omega, settle_finalize w dt rngV h1 h2 hna hsd1⟩
    · have hstate : (tick w dt rngV).1
          = { w with state := { w.state with
              stop_delay := w.state.stop_delay + dt } } := by
        simp [tick, h1, h2, if_neg hsd1]
      have h1' : (tick w dt rngV).1.state.is_spinning = true := by
        rw [hstate]
        exact h1
      have h2' : (tick w dt rngV).1.state.has_stopped = true := by
        rw [hstate]
        exact h2
      have hna' : ¬ ((tick w dt rngV).1.data.auto_spin = true
          ∧ (tick w dt rngV).1.data.remove_winner = true) := by
        rw [hstate]
        exact hna
      have hsd'' : 1 ≤ (tick w dt rngV).1.state.stop_delay
          + ((m' : ℚ) + 1) * dt := by
        rw [hstate]
        show 1 ≤ w.state.stop_delay + dt + ((m' : ℚ) + 1) * dt
        push_cast at hsd
        linarith
      obtain ⟨j, hj, hsp⟩ := ih (tick w dt rngV).1 h1' h2' hna' hsd''
      refine ⟨j + 1, by omega, ?_⟩
      rw [tickN_succ_front]
      exact hsp

/-- C7: a freshly spun wheel (velocity in `[0.5, 0.8)`, rotation 0, settle
timer 0) ticked repeatedly with any fixed `dt > 0` reaches
`is_spinning = false` after finitely many ticks, provided `auto_spin` and
`remove_winner` are not both set (so the finalization does not restart the
spin); from then on every further tick is a no-op returning `false`. -/
theorem c7_spin_terminates (w : Wheel) (dt rngV : ℚ)
    (hdt : 0 < dt)
    (h1 : w.state.is_spinning = true)
    (h2 : w.state.has_stopped = false)
    (hrot : w.state.rotation = 0)
    (hsd0 : w.state.stop_delay = 0)
    (hv : 1/2 ≤ w.state.velocity) (hv8 : w.state.velocity < 4/5)
    (hna : ¬ (w.data.auto_spin = true ∧ w.data.remove_winner = true)) :
    ∃ n, (tickN w dt rngV n).state.is_spinning = false
      ∧ ∀ m, n ≤ m → tickN w dt rngV m = tickN w dt rngV n
        ∧ tick (tickN w dt rngV m) dt rngV = (tickN w dt rngV m, false) := by
  have hpow : ((39:ℚ)/40) ^ 301 < 1/800 := by norm_num
  have hdec : w.state.velocity * (39/40) ^ (300 + 1) < 1/1000 := by
    have hq0 : (0:ℚ) ≤ (39/40 : ℚ) ^ 301 := by positivity
    have h1' : w.state.velocity * (39/40) ^ 301 < (4/5) * (1/800) :=
      mul_lt_mul'' hv8 hpow (by linarith) hq0
    norm_num at h1' ⊢
    linarith
  obtain ⟨j1, hj1, hs1, hst1, hsd1, hdata1⟩ :=
    decel_phase dt rngV 300 w h1 h2 (by linarith) hdec
  obtain ⟨m, hm⟩ := exists_nat_gt (1 / dt)
  have hsd2 : 1 ≤ (tickN w dt rngV j1).state.stop_delay
      + ((m : ℚ) + 1) * dt := by
    rw [hsd1, hsd0]
    have hlt : 1 / dt * dt < (m:ℚ) * dt := mul_lt_mul_of_pos_right hm hdt
    rw [div_mul_cancel₀ _ (ne_of_gt hdt)] at hlt
    nlinarith
  have hna1 : ¬ ((tickN w dt rngV j1).data.auto_spin = true
      ∧ (tickN w dt rngV j1).data.remove_winner = true) := by
    rw [hdata1]
    exact hna
  obtain ⟨j2, hj2, hs2⟩ :=
    settle_phase dt rngV hdt m (tickN w dt rngV j1) hs1 hst1 hna1 hsd2
  rw [← tickN_add] at hs2
  refine ⟨j1 + j2, hs2, ?_⟩
  intro m' hm'
  obtain ⟨k, rfl⟩ := Nat.exists_eq_add_of_le hm'
  have hstab := tickN_stable w dt rngV (j1 + j2) hs2 k
  refine ⟨hstab, ?_⟩
  rw [hstab]
  exact tick_not_spinning _ _ _ hs2

/-- Instantiation of C7 at a concrete wheel, `dt = 1`. -/
theorem c7_spin_terminates_witness :
    ∃ n, (tickN wC7 1 (3/5) n).state.is_spinning = false
      ∧ ∀ m, n ≤ m → tickN wC7 1 (3/5) m = tickN wC7 1 (3/5) n
        ∧ tick (tickN wC7 1 (3/5) m) 1 (3/5) = (tickN wC7 1 (3/5) m, false) :=
  c7_spin_terminates wC7 1 (3/5) (by norm_num) rfl rfl rfl rfl
    (by with_unfolding_all decide) (by with_unfolding_all decide) (by decide)

end GerbilDecide
